import Mathlib

/-!
Verification of the rpools small-object pool allocator.

The definitions below are a shallow embedding of the allocator core:
the page-level pool `GlobalLinkedPool2` (src/unnamed/part_001), the
size-class dispatcher of src/src/custom_new/custom_new_delete.cpp and
src/pool_impl/src/custom_new_delete2.h, and the pointer-recovery scheme
used at deallocation time.  Machine addresses and byte values are
modelled as `Nat`; null is address 0.  `size_t` wrap-around is modelled
explicitly with `% 2 ^ 64` where the source can underflow.
-/

/-! ## Platform constants -/

/-- Page size of the reference platform (`sysconf(_SC_PAGESIZE)` = 4096). -/
def PAGE_SIZE : Nat := 4096

/-- Log2 of the page size, used by the pool mask. -/
def PAGE_SHIFT : Nat := 12

/-- Size of one pointer / one intrusive free-list node (`sizeof(NodeG2)`). -/
def NODE_SIZE : Nat := 8

/-- Size of the pool header placed at a page base: `sizeof(PoolHeaderG2)` =
`char isPool[8]` + `size_t sizeOfPool` + `size_t sizeOfObjects` + `NodeG2 head`. -/
def POOL_HEADER_SIZE : Nat := 32

/-- Size of the tag block put in front of malloc-served regions:
`sizeof(MallocHeader)` with `char validity[16]`. -/
def MALLOC_HEADER_SIZE : Nat := 16

/-- Small/large threshold of both dispatchers (`__threshold = 128`). -/
def threshold : Nat := 128

/-- Number of size-class entries in the dispatcher array:
`__threshold >> __logOfVoid` = 16. -/
def numPools : Nat := 16

/-- The pool mask application `addr & POOL_MASK`, where
`POOL_MASK = -1 >> log2(PAGE_SIZE) << log2(PAGE_SIZE)` clears the low
`PAGE_SHIFT` bits of an address. -/
def poolMask (p : Nat) : Nat := p >>> PAGE_SHIFT <<< PAGE_SHIFT

/-! ## Byte-level memory and the malloc tag -/

/-- Byte-addressed memory: each address holds one byte value. -/
def Mem : Type := Nat → Nat

/-- The all-zero memory, used as a concrete test memory. -/
def zeroMem : Mem := fun _ => 0

/-- Byte values of the malloc sentinel string `IsThIsMaLlOcD!`
(14 characters; `strcpy` also copies the terminating NUL). -/
def mallocSentinel : List Nat := [73, 115, 84, 104, 73, 115, 77, 97, 76, 108, 79, 99, 68, 33]

/-- Write a list of bytes at consecutive addresses starting at `a`. -/
def writeBytes (m : Mem) (a : Nat) : List Nat → Mem
  | [] => m
  | b :: bs => fun x => if x = a then b else writeBytes m (a + 1) bs x

/-- The memory effect of
`new(addr) MallocHeader(); strcpy(header->validity, "IsThIsMaLlOcD!")`:
the 14 sentinel characters followed by a NUL are stored at `addr`. -/
def writeMallocTag (m : Mem) (a : Nat) : Mem :=
  writeBytes m a (mallocSentinel ++ [0])

/-- The comparison `strcmp(header->validity, "IsThIsMaLlOcD!") == 0` on the
16-byte `MallocHeader` at address `a`: all 14 sentinel characters match and
the byte after them is NUL. -/
def isMallocTag (m : Mem) (a : Nat) : Bool :=
  ((List.range 14).all fun i => m (a + i) == mallocSentinel.getD i 0) && (m (a + 14) == 0)

/-! ## Deallocation routing (custom_delete of custom_new_delete.cpp) -/

/-- Modelled from the spec: the `PoolHeaderG` of the `GlobalLinkedPool`
header missing from src (only its users are present).  Per §3 of the spec
it carries the pool tag and the slot-size class (`sizeOfSlot`), exactly
like the `PoolHeaderG2` of src/unnamed/part_001. -/
structure PoolHeaderG where
  isPool : List Nat
  sizeOfSlot : Nat
deriving DecidableEq

/-- Where `custom_delete` sends a pointer: either `free` on the given
address, or `pools[getPoolsIndex s].deallocate` for slot-size class `s`. -/
inductive DeallocRoute where
  | systemFree : Nat → DeallocRoute
  | poolDealloc : Nat → Nat → DeallocRoute
deriving DecidableEq

/-- Function `GlobalLinkedPool::getPoolHeader(ptr)`: reinterpret the page base
`ptr & POOL_MASK` as a pool header.  `headerAt` models the header contents
stored at each page base. -/
def getPoolHeader (headerAt : Nat → PoolHeaderG) (p : Nat) : PoolHeaderG :=
  headerAt (poolMask p)

/-- Function `custom_delete` of src/src/custom_new/custom_new_delete.cpp: compare the
16 bytes at `t_ptr - sizeof(MallocHeader)` against the malloc sentinel; on a
match `free` the tagged block, otherwise read the pool header recovered by
masking and dispatch to the pool of the header's slot-size class. -/
def custom_delete (m : Mem) (headerAt : Nat → PoolHeaderG) (p : Nat) : DeallocRoute :=
  if isMallocTag m (p - MALLOC_HEADER_SIZE) then
    DeallocRoute.systemFree (p - MALLOC_HEADER_SIZE)
  else
    DeallocRoute.poolDealloc (getPoolHeader headerAt p).sizeOfSlot p

/-! ## The large allocation path (custom_new_no_throw, size > threshold) -/

/-- The large path of `custom_new_no_throw(t_size, t_alignment)`:
`addr = malloc(t_size + sizeof(MallocHeader))`, placement-new of a
`MallocHeader` at `addr`, `strcpy` of the sentinel into it, and return of
`addr + sizeof(MallocHeader)`.  The source performs no null check, so a
null result from `malloc` (modelled as `none`) is treated as address 0:
the tag bytes are written starting at 0 and `0 + 16` is returned. -/
def custom_new_large (m : Mem) (mallocAddr : Option Nat) (t_size : Nat) : Mem × Nat :=
  let addr := match mallocAddr with
    | none => 0
    | some a => a
  (writeMallocTag m addr, addr + MALLOC_HEADER_SIZE)

/-! ## Size-class normalization and indexing (small path) -/

/-- Rounding of the requested size up to the next multiple of
`sizeof(void*)`: `remainder == 0 ? size : (size + __mod) & ~__mod`,
written arithmetically for `Nat` (`& ~7` clears the low three bits). -/
def roundToVoid (size : Nat) : Nat :=
  if size % 8 = 0 then size else (size + 7) / 8 * 8

/-- The alignment bump of custom_new_delete.cpp:
`t_size += mod(t_size, t_alignment) == 0 ? 0 : sizeof(void*)`.
The helper `mod` is not under src; modelled from the spec as `%`. -/
def alignBump (size alignment : Nat) : Nat :=
  size + (if size % alignment = 0 then 0 else NODE_SIZE)

/-- The full small-path size-class normalization of
`custom_new_no_throw(t_size, t_alignment)`. -/
def smallSizeClass (size alignment : Nat) : Nat :=
  alignBump (roundToVoid size) alignment

/-- Modelled from the spec: the size-to-index conversion of the missing
`GlobalPools::getPool` (the source comment says: convert the size to an
index of the allocators vector by dividing it by `sizeof(void*)`; the spec
gives `index = (normalized_size / pointer_size) - 1`).  The subtraction is
`size_t` arithmetic, so it wraps modulo `2 ^ 64`. -/
def getPoolsIndex (size : Nat) : Nat :=
  (size / 8 + (2 ^ 64 - 1)) % 2 ^ 64

/-- Function `getAllocatorsIndex` of src/pool_impl/src/custom_new_delete2.h (the
variant with the explicit zero guard): `if (size == 0) return 0;
return (size >> __logOfVoid) - 1;` in `size_t` arithmetic. -/
def getAllocatorsIndex (size : Nat) : Nat :=
  if size = 0 then 0 else (size / 8 + (2 ^ 64 - 1)) % 2 ^ 64

/-! ## Operator delete overloads (custom_new_delete.cpp) -/

/-- What the body of an `operator delete` overload does with its argument:
nothing at all, or a call to `custom_delete` on the pointer. -/
inductive DeleteCall where
  | noop : DeleteCall
  | callsCustomDelete : Nat → DeleteCall
deriving DecidableEq

/-- Overload `operator delete(void*)`: guarded by `if (t_ptr != nullptr)`. -/
def operatorDeleteScalar (p : Nat) : DeleteCall :=
  if p ≠ 0 then DeleteCall.callsCustomDelete p else DeleteCall.noop

/-- Overload `operator delete(void*, const std::nothrow_t&)`: same null guard. -/
def operatorDeleteScalarNt (p : Nat) : DeleteCall :=
  if p ≠ 0 then DeleteCall.callsCustomDelete p else DeleteCall.noop

/-- Overload `operator delete[](void*)`: forwards to `custom_delete` unconditionally. -/
def operatorDeleteArr (p : Nat) : DeleteCall :=
  DeleteCall.callsCustomDelete p

/-- Overload `operator delete[](void*, const std::nothrow_t&)`: unconditional. -/
def operatorDeleteArrNt (p : Nat) : DeleteCall :=
  DeleteCall.callsCustomDelete p

/-! ## The page-level pool: GlobalLinkedPool2 (src/unnamed/part_001)

A pool page holds its header fields (`sizeOfPool` = occupied slot count
and `sizeOfObjects`); the intrusive free list embedded in the slots is
modelled as the list of slot addresses reachable from `head.next`. -/

/-- The observable state of one pool page. -/
structure PoolPage where
  sizeOfPool : Nat
  sizeOfObjects : Nat
  freeList : List Nat
deriving DecidableEq

/-- The slot addresses of a page of `cap` slots of size `s` at base `base`:
the first slot sits directly after the header (`header + 1`) and subsequent
slots follow at stride `s`.  This is also the initial free-list chain the
constructor writes into the page. -/
def poolSlots (base s cap : Nat) : List Nat :=
  (List.range cap).map fun i => base + POOL_HEADER_SIZE + i * s

/-- Association-list lookup of a page by its base address (`m_freePools`
elements and the masked pointer identify pages by base). -/
def lookupPage : List (Nat × PoolPage) → Nat → Option PoolPage
  | [], _ => none
  | q :: qs, b => if q.1 = b then some q.2 else lookupPage qs b

/-- Replace the page stored at base `b`. -/
def updatePage : List (Nat × PoolPage) → Nat → PoolPage → List (Nat × PoolPage)
  | [], _, _ => []
  | q :: qs, b, pg => if q.1 = b then (b, pg) :: qs else q :: updatePage qs b pg

/-- Remove the page stored at base `b` (`free(pool)`). -/
def erasePage (l : List (Nat × PoolPage)) (b : Nat) : List (Nat × PoolPage) :=
  l.filter fun q => q.1 != b

/-- Insertion in the style of `std::set` into the sorted list of free-pool bases. -/
def insertPool (x : Nat) : List Nat → List Nat
  | [] => [x]
  | y :: ys => if x < y then x :: y :: ys else if x = y then y :: ys else y :: insertPool x ys

/-- Erasure in the style of `std::set` from the sorted list of free-pool bases. -/
def erasePool (x : Nat) (l : List Nat) : List Nat :=
  l.filter fun y => y != x

/-- The state of a `GlobalLinkedPool2` allocator: the constructor-fixed
slot size and capacity, the live pages it owns, the set of non-full pool
bases (`m_freePools`, kept sorted; its head is `*begin()`, the minimum),
and the cached pool hint (`m_freePool`). -/
structure GlobalLinkedPool2 where
  sizeOfObjects : Nat
  poolSize : Nat
  pages : List (Nat × PoolPage)
  freePools : List Nat
  freePool : Option Nat
deriving DecidableEq

/-- The constructor `GlobalLinkedPool2(t_sizeOfObjects)`: the slot size is
bumped to `sizeof(NodeG2)` when smaller, and
`m_poolSize = (PAGE_SIZE - sizeof(PoolHeaderG2)) / m_sizeOfObjects`. -/
def GlobalLinkedPool2.init (t_sizeOfObjects : Nat) : GlobalLinkedPool2 :=
  let s := if t_sizeOfObjects < NODE_SIZE then NODE_SIZE else t_sizeOfObjects
  { sizeOfObjects := s
    poolSize := (PAGE_SIZE - POOL_HEADER_SIZE) / s
    pages := []
    freePools := []
    freePool := none }

/-- Method `GlobalLinkedPool2::nextFree(pool)`: pop the head of the pool's free
list, increment `sizeOfPool`, and if the pool just became full remove it
from `m_freePools` and reset the cached hint to the new minimum (or null).
An empty free list returns null and changes nothing. -/
def GlobalLinkedPool2.nextFree (g : GlobalLinkedPool2) (pool : Nat) :
    Option Nat × GlobalLinkedPool2 :=
  match lookupPage g.pages pool with
  | none => (none, g)
  | some pg =>
    match pg.freeList with
    | [] => (none, g)
    | p :: rest =>
      let pg' : PoolPage :=
        { pg with sizeOfPool := pg.sizeOfPool + 1, freeList := rest }
      let g' := { g with pages := updatePage g.pages pool pg' }
      if pg.sizeOfPool + 1 = g.poolSize then
        let fps := erasePool pool g.freePools
        (some p, { g' with freePools := fps, freePool := fps.head? })
      else
        (some p, g')

/-- Method `GlobalLinkedPool2::allocate()`: use the cached pool if set, else the
minimum non-full pool, else create a new page (`aligned_alloc(PAGE_SIZE,
PAGE_SIZE)` supplies `fresh`), link all its slots into the free list,
publish it in `m_freePools` and the cache, and pop from it. -/
def GlobalLinkedPool2.allocate (g : GlobalLinkedPool2) (fresh : Nat) :
    Option Nat × GlobalLinkedPool2 :=
  match g.freePool with
  | some b => g.nextFree b
  | none =>
    match g.freePools with
    | b :: _ => g.nextFree b
    | [] =>
      let pg : PoolPage :=
        { sizeOfPool := 0
          sizeOfObjects := g.sizeOfObjects
          freeList := poolSlots fresh g.sizeOfObjects g.poolSize }
      let g' : GlobalLinkedPool2 :=
        { g with pages := g.pages ++ [(fresh, pg)]
                 freePools := insertPool fresh g.freePools
                 freePool := some fresh }
      g'.nextFree fresh

/-- Method `GlobalLinkedPool2::deallocate(t_ptr)`: recover the page base with the
pool mask, push the slot onto the front of the free list, decrement
`sizeOfPool`; when the count reaches zero the page is erased from
`m_freePools` and freed and the cache moves to the remaining minimum,
otherwise the cache points at this pool and a previously-full pool is
re-inserted into `m_freePools`.  A pointer whose masked base is not a live
page dereferences foreign memory in the source (undefined behavior); the
model leaves the state unchanged. -/
def GlobalLinkedPool2.deallocate (g : GlobalLinkedPool2) (p : Nat) : GlobalLinkedPool2 :=
  let pool := poolMask p
  match lookupPage g.pages pool with
  | none => g
  | some pg =>
    let newSize := pg.sizeOfPool - 1
    if newSize = 0 then
      let fps := erasePool pool g.freePools
      { g with pages := erasePage g.pages pool, freePools := fps, freePool := fps.head? }
    else
      let pg' : PoolPage :=
        { pg with sizeOfPool := newSize, freeList := p :: pg.freeList }
      let fps := if newSize = g.poolSize - 1 then insertPool pool g.freePools else g.freePools
      { g with pages := updatePage g.pages pool pg', freePools := fps, freePool := some pool }

/-! ## Well-formedness of a pool state (§4.1 invariants) -/

/-- The §4.1 pool invariant: `occupied_count + length(free_list) ==
capacity`, no duplicate free-list nodes, and every node inside the pool's
slot range. -/
def PoolPage.wf (cap base : Nat) (pg : PoolPage) : Prop :=
  pg.sizeOfPool + pg.freeList.length = cap ∧
  pg.freeList.Nodup ∧
  ∀ p ∈ pg.freeList, p ∈ poolSlots base pg.sizeOfObjects cap

instance (cap base : Nat) (pg : PoolPage) : Decidable (pg.wf cap base) := by
  unfold PoolPage.wf; infer_instance

/-- Well-formedness of a whole allocator state: the capacity matches the
constructor formula, slots are at least pointer-sized, every owned page is
page-aligned, nonzero, of the allocator's slot size, and satisfies the
§4.1 pool invariant, and page bases are distinct. -/
def GlobalLinkedPool2.wf (g : GlobalLinkedPool2) : Prop :=
  NODE_SIZE ≤ g.sizeOfObjects ∧
  g.poolSize = (PAGE_SIZE - POOL_HEADER_SIZE) / g.sizeOfObjects ∧
  (g.pages.map Prod.fst).Nodup ∧
  ∀ q ∈ g.pages,
    q.2.sizeOfObjects = g.sizeOfObjects ∧ q.1 % PAGE_SIZE = 0 ∧ 0 < q.1 ∧
      q.2.wf g.poolSize q.1

instance (g : GlobalLinkedPool2) : Decidable g.wf := by
  unfold GlobalLinkedPool2.wf; infer_instance

/-- Environment guarantee on a page returned by `aligned_alloc(PAGE_SIZE,
PAGE_SIZE)`: page-aligned, non-null, and disjoint from the pages the
allocator already owns. -/
def freshOk (g : GlobalLinkedPool2) (fresh : Nat) : Prop :=
  fresh % PAGE_SIZE = 0 ∧ 0 < fresh ∧ fresh ∉ g.pages.map Prod.fst

instance (g : GlobalLinkedPool2) (fresh : Nat) : Decidable (freshOk g fresh) := by
  unfold freshOk; infer_instance

/-- A pointer is a live allocation of state `g`: it lies in the slot range
of an owned page but not on that page's free list. -/
def isLive (g : GlobalLinkedPool2) (p : Nat) : Prop :=
  ∃ q ∈ g.pages, p ∈ poolSlots q.1 q.2.sizeOfObjects g.poolSize ∧ p ∉ q.2.freeList

instance (g : GlobalLinkedPool2) (p : Nat) : Decidable (isLive g p) := by
  unfold isLive; infer_instance

/-! ## Suffix chains of the initial free list -/

/-- The suffix of the initial slot chain starting at slot index `j`. -/
def chainSuffix (base s j cap : Nat) : List Nat :=
  (List.range (cap - j)).map fun i => base + POOL_HEADER_SIZE + (j + i) * s

/-- Header padding inserted before the first slot.  The source inserts
none: the first slot is `reinterpret_cast<char*>(header + 1)`, directly
after the header. -/
def headerPadding (s : Nat) : Nat := 0

/-- Byte values of the pool tag `__pool_` (`PoolHeaderG2::IS_POOL`),
including the terminating NUL of the 8-byte array. -/
def poolSentinel : List Nat := [95, 95, 112, 111, 111, 108, 95, 0]

/-! ## Operation sequences over one allocator -/

/-- One pool operation: an allocation (with the page base the system
would supply if a new page is needed) or a deallocation. -/
inductive PoolOp where
  | alloc : Nat → PoolOp
  | dealloc : Nat → PoolOp

/-- Run a sequence of operations, collecting the result of every
allocation in order. -/
def runOps (g : GlobalLinkedPool2) : List PoolOp → List (Option Nat) × GlobalLinkedPool2
  | [] => ([], g)
  | PoolOp.alloc fresh :: ops =>
    let out := runOps (g.allocate fresh).2 ops
    ((g.allocate fresh).1 :: out.1, out.2)
  | PoolOp.dealloc p :: ops => runOps (g.deallocate p) ops

/-- Run `n` allocations; the base of the `k`-th page ever created is
`f k` (the model of successive `aligned_alloc` results). -/
def allocRun (g : GlobalLinkedPool2) (f : Nat → Nat) : Nat → List (Option Nat) × GlobalLinkedPool2
  | 0 => ([], g)
  | n + 1 =>
    let step := g.allocate (f g.pages.length)
    let out := allocRun step.2 f n
    (step.1 :: out.1, out.2)

/-- A page every slot of which is handed out. -/
def fullPage (s cap : Nat) : PoolPage :=
  { sizeOfPool := cap, sizeOfObjects := s, freeList := [] }

/-- A page whose first `j` slots are handed out and whose free list is
the remaining suffix chain. -/
def midPage (b s j cap : Nat) : PoolPage :=
  { sizeOfPool := j, sizeOfObjects := s, freeList := chainSuffix b s j cap }

/-- The allocator state reached from a fresh `GlobalLinkedPool2` after
`t` allocations and no deallocations: `t / cap` completely full pages
followed by one partially used page holding the remaining `t % cap`
live slots (absent when `t % cap = 0`). -/
def stateAfter (s cap : Nat) (f : Nat → Nat) (t : Nat) : GlobalLinkedPool2 :=
  let m := t / cap
  let j := t % cap
  { sizeOfObjects := s
    poolSize := cap
    pages := ((List.range m).map (fun i => (f i, fullPage s cap))) ++
      (if j = 0 then [] else [(f m, midPage (f m) s j cap)])
    freePools := if j = 0 then [] else [f m]
    freePool := if j = 0 then none else some (f m) }

/-- The address returned by the `t`-th allocation (counting from 0) of an
allocation-only run: slot `t % cap` of page `t / cap`. -/
def runAddr (s cap : Nat) (f : Nat → Nat) (t : Nat) : Nat :=
  f (t / cap) + POOL_HEADER_SIZE + t % cap * s

/-- Concrete page-base oracle used by witnesses: page `k` sits at
`(k + 1) * PAGE_SIZE`. -/
def exF (k : Nat) : Nat := (k + 1) * PAGE_SIZE

/-- Concrete header store used by witnesses: every page base carries a
pool header tagged `__pool_` with slot-size class 16. -/
def exHeaderAt : Nat → PoolHeaderG :=
  fun _ => { isPool := poolSentinel, sizeOfSlot := 16 }

/-! # Theorems -/

/-! ## Helper lemmas about the association list of pages -/

theorem lookupPage_mem {l : List (Nat × PoolPage)} {b : Nat} {pg : PoolPage}
    (h : lookupPage l b = some pg) : (b, pg) ∈ l := by
  induction l with
  | nil => simp [lookupPage] at h
  | cons q qs ih =>
    rcases q with ⟨a, c⟩
    by_cases hq : a = b
    · subst hq
      simp [lookupPage] at h
      subst h
      exact List.mem_cons_self _ _
    · simp only [lookupPage, if_neg hq] at h
      exact List.mem_cons_of_mem _ (ih h)

theorem lookupPage_eq_of_mem {l : List (Nat × PoolPage)} {b : Nat} {pg : PoolPage}
    (hnd : (l.map Prod.fst).Nodup) (h : (b, pg) ∈ l) : lookupPage l b = some pg := by
  induction l with
  | nil => simp at h
  | cons q qs ih =>
    simp only [List.map_cons, List.nodup_cons] at hnd
    rcases List.mem_cons.1 h with h1 | h1
    · subst h1
      simp [lookupPage]
    · have hne : q.1 ≠ b := by
        intro he
        exact hnd.1 (he ▸ List.mem_map_of_mem Prod.fst h1)
      simp only [lookupPage, if_neg hne]
      exact ih hnd.2 h1

theorem lookupPage_append_last {l : List (Nat × PoolPage)} {b : Nat} (pg : PoolPage)
    (hb : b ∉ l.map Prod.fst) : lookupPage (l ++ [(b, pg)]) b = some pg := by
  induction l with
  | nil => simp [lookupPage]
  | cons q qs ih =>
    simp only [List.map_cons, List.mem_cons] at hb
    push_neg at hb
    have hne : q.1 ≠ b := fun h => hb.1 h.symm
    simp only [List.cons_append, lookupPage, if_neg hne]
    exact ih hb.2

theorem mem_updatePage {l : List (Nat × PoolPage)} {b : Nat} {pg : PoolPage}
    {q : Nat × PoolPage} (h : q ∈ updatePage l b pg) : q = (b, pg) ∨ q ∈ l := by
  induction l with
  | nil => simp [updatePage] at h
  | cons r rs ih =>
    by_cases hr : r.1 = b
    · simp only [updatePage, if_pos hr, List.mem_cons] at h
      rcases h with h | h
      · exact Or.inl h
      · exact Or.inr (List.mem_cons_of_mem _ h)
    · simp only [updatePage, if_neg hr, List.mem_cons] at h
      rcases h with h | h
      · exact Or.inr (h ▸ List.mem_cons_self r rs)
      · rcases ih h with h1 | h1
        · exact Or.inl h1
        · exact Or.inr (List.mem_cons_of_mem _ h1)

theorem map_fst_updatePage (l : List (Nat × PoolPage)) (b : Nat) (pg : PoolPage) :
    (updatePage l b pg).map Prod.fst = l.map Prod.fst := by
  induction l with
  | nil => simp [updatePage]
  | cons r rs ih =>
    by_cases hr : r.1 = b
    · simp [updatePage, if_pos hr, hr]
    · simp [updatePage, if_neg hr, ih]

theorem updatePage_append_last {l : List (Nat × PoolPage)} {b : Nat} (pg pg' : PoolPage)
    (hb : b ∉ l.map Prod.fst) :
    updatePage (l ++ [(b, pg)]) b pg' = l ++ [(b, pg')] := by
  induction l with
  | nil => simp [updatePage]
  | cons q qs ih =>
    simp only [List.map_cons, List.mem_cons] at hb
    push_neg at hb
    have hne : q.1 ≠ b := fun h => hb.1 h.symm
    simp only [List.cons_append, updatePage, if_neg hne, List.append_eq]
    rw [ih hb.2]

theorem lookupPage_updatePage_self {l : List (Nat × PoolPage)} {b : Nat} {pg : PoolPage}
    (pg' : PoolPage) (h : lookupPage l b = some pg) :
    lookupPage (updatePage l b pg') b = some pg' := by
  induction l with
  | nil => simp [lookupPage] at h
  | cons q qs ih =>
    by_cases hq : q.1 = b
    · simp [updatePage, if_pos hq, lookupPage]
    · simp only [lookupPage, if_neg hq] at h
      simp only [updatePage, if_neg hq, lookupPage, if_neg hq]
      exact ih h

theorem lookupPage_updatePage_ne {l : List (Nat × PoolPage)} {b b' : Nat} (pg : PoolPage)
    (hne : b' ≠ b) : lookupPage (updatePage l b pg) b' = lookupPage l b' := by
  induction l with
  | nil => simp [updatePage]
  | cons q qs ih =>
    by_cases hq : q.1 = b
    · have hbb : b ≠ b' := fun h => hne h.symm
      simp [updatePage, if_pos hq, lookupPage, hbb, hq]
    · by_cases hq' : q.1 = b'
      · simp [updatePage, if_neg hq, lookupPage, if_pos hq']
      · simp only [updatePage, if_neg hq, lookupPage, if_neg hq']
        exact ih

theorem lookupPage_erasePage_self (l : List (Nat × PoolPage)) (b : Nat) :
    lookupPage (erasePage l b) b = none := by
  induction l with
  | nil => rfl
  | cons q qs ih =>
    simp only [erasePage, List.filter_cons] at ih ⊢
    by_cases hq : q.1 = b
    · simp only [hq, bne_self_eq_false, Bool.false_eq_true, if_false]
      exact ih
    · have : (q.1 != b) = true := by simp [hq]
      simp only [this, if_true, lookupPage, if_neg hq]
      exact ih

theorem lookupPage_erasePage_ne (l : List (Nat × PoolPage)) {b b' : Nat} (hne : b' ≠ b) :
    lookupPage (erasePage l b) b' = lookupPage l b' := by
  induction l with
  | nil => rfl
  | cons q qs ih =>
    simp only [erasePage, List.filter_cons] at ih ⊢
    by_cases hq : q.1 = b
    · have hbb : b ≠ b' := fun h => hne h.symm
      simp only [hq, bne_self_eq_false, Bool.false_eq_true, if_false, lookupPage, if_neg hbb]
      exact ih
    · have : (q.1 != b) = true := by simp [hq]
      simp only [this, if_true, lookupPage]
      by_cases hq' : q.1 = b'
      · rw [if_pos hq', if_pos hq']
      · rw [if_neg hq', if_neg hq']
        exact ih

theorem mem_erasePage {l : List (Nat × PoolPage)} {b : Nat} {q : Nat × PoolPage}
    (h : q ∈ erasePage l b) : q ∈ l :=
  List.mem_of_mem_filter h

/-! ## Arithmetic lemmas about the pool mask and slot addresses -/

theorem poolMask_eq_div (p : Nat) : poolMask p = p / PAGE_SIZE * PAGE_SIZE := by
  have h1 : p >>> PAGE_SHIFT = p / 2 ^ PAGE_SHIFT := Nat.shiftRight_eq_div_pow p PAGE_SHIFT
  have h2 : ∀ n : Nat, n <<< PAGE_SHIFT = n * 2 ^ PAGE_SHIFT := fun n => Nat.shiftLeft_eq n PAGE_SHIFT
  simp only [poolMask, h1, h2]
  rfl

theorem poolMask_add_offset {b o : Nat} (hb : b % PAGE_SIZE = 0) (ho : o < PAGE_SIZE) :
    poolMask (b + o) = b := by
  rw [poolMask_eq_div]
  obtain ⟨k, rfl⟩ := Nat.dvd_of_mod_eq_zero hb
  have hpos : 0 < PAGE_SIZE := by decide
  rw [Nat.mul_add_div hpos, Nat.div_eq_of_lt ho]
  ring

theorem mem_poolSlots {p b s cap : Nat} :
    p ∈ poolSlots b s cap ↔ ∃ i, i < cap ∧ p = b + POOL_HEADER_SIZE + i * s := by
  simp only [poolSlots, List.mem_map, List.mem_range]
  constructor
  · rintro ⟨i, hi, rfl⟩
    exact ⟨i, hi, rfl⟩
  · rintro ⟨i, hi, rfl⟩
    exact ⟨i, hi, rfl⟩

theorem poolSlots_length (b s cap : Nat) : (poolSlots b s cap).length = cap := by
  simp [poolSlots]

theorem poolSlots_nodup (b cap : Nat) {s : Nat} (hs : 0 < s) : (poolSlots b s cap).Nodup := by
  refine List.Nodup.map ?_ (List.nodup_range cap)
  intro i j hij
  dsimp only at hij
  have hms : i * s = j * s := Nat.add_left_cancel hij
  exact Nat.eq_of_mul_eq_mul_right hs hms

/-- Any slot of a page whose capacity respects the page size lies at an
offset in `[POOL_HEADER_SIZE, PAGE_SIZE)` from the page base. -/
theorem slot_offset_bounds {b s cap p : Nat} (hs : 0 < s)
    (hcap : cap * s ≤ PAGE_SIZE - POOL_HEADER_SIZE) (hp : p ∈ poolSlots b s cap) :
    b + POOL_HEADER_SIZE ≤ p ∧ p < b + PAGE_SIZE := by
  rcases mem_poolSlots.1 hp with ⟨i, hi, rfl⟩
  have h1 : (i + 1) * s ≤ cap * s := Nat.mul_le_mul_right s hi
  have h2 : i * s + s ≤ PAGE_SIZE - POOL_HEADER_SIZE := by
    calc i * s + s = (i + 1) * s := by ring
    _ ≤ cap * s := h1
    _ ≤ PAGE_SIZE - POOL_HEADER_SIZE := hcap
  constructor
  · omega
  · have : POOL_HEADER_SIZE ≤ PAGE_SIZE := by norm_num [POOL_HEADER_SIZE, PAGE_SIZE]
    omega

/-- The pool mask recovers the page base from any slot address. -/
theorem poolMask_slot {b s cap p : Nat} (hb : b % PAGE_SIZE = 0) (hs : 0 < s)
    (hcap : cap * s ≤ PAGE_SIZE - POOL_HEADER_SIZE) (hp : p ∈ poolSlots b s cap) :
    poolMask p = b := by
  have hbd := slot_offset_bounds hs hcap hp
  rcases mem_poolSlots.1 hp with ⟨i, hi, rfl⟩
  have ho : POOL_HEADER_SIZE + i * s < PAGE_SIZE := by
    have h2 := hbd.2
    omega
  have he : b + POOL_HEADER_SIZE + i * s = b + (POOL_HEADER_SIZE + i * s) := by ring
  rw [he, poolMask_add_offset hb ho]

/-- Capacity times slot size never exceeds the usable page area. -/
theorem capacity_mul_le (s : Nat) :
    (PAGE_SIZE - POOL_HEADER_SIZE) / s * s ≤ PAGE_SIZE - POOL_HEADER_SIZE :=
  Nat.div_mul_le_self _ s

/-! ## Chain-suffix lemmas -/

theorem poolSlots_eq_chainSuffix (b s cap : Nat) :
    poolSlots b s cap = chainSuffix b s 0 cap := by
  simp [poolSlots, chainSuffix]

theorem chainSuffix_cons {j cap : Nat} (b s : Nat) (hj : j < cap) :
    chainSuffix b s j cap = (b + POOL_HEADER_SIZE + j * s) :: chainSuffix b s (j + 1) cap := by
  have h1 : cap - j = (cap - (j + 1)) + 1 := by omega
  simp only [chainSuffix, h1, List.range_succ_eq_map, List.map_cons, List.map_map]
  congr 1
  refine List.map_congr_left ?_
  intro a _
  simp only [Function.comp_apply, Nat.succ_eq_add_one]
  ring

theorem chainSuffix_last (b s cap : Nat) : chainSuffix b s cap cap = [] := by
  simp [chainSuffix]

/-! ## Reading back the malloc tag -/

theorem writeBytes_get (m : Mem) :
    ∀ (bs : List Nat) (a i : Nat), i < bs.length → writeBytes m a bs (a + i) = bs.getD i 0 := by
  intro bs
  induction bs with
  | nil => intro a i h; simp at h
  | cons b rest ih =>
    intro a i h
    cases i with
    | zero => simp [writeBytes]
    | succ i =>
      simp only [writeBytes]
      rw [if_neg (by omega)]
      have he : a + (i + 1) = (a + 1) + i := by ring
      rw [he]
      exact ih (a + 1) i (by simpa using h)

theorem isMallocTag_writeMallocTag (m : Mem) (a : Nat) :
    isMallocTag (writeMallocTag m a) a = true := by
  unfold isMallocTag writeMallocTag
  rw [Bool.and_eq_true]
  constructor
  · rw [List.all_eq_true]
    intro i hi
    rw [List.mem_range] at hi
    rw [writeBytes_get m _ a i (by simp [mallocSentinel]; omega)]
    interval_cases i <;> rfl
  · rw [writeBytes_get m _ a 14 (by simp [mallocSentinel])]
    rfl

/-- Claim C1: deallocation routing is decided by the bytes at offset
`-sizeof(MallocTag)`: a pointer returned by the large path (whose tag the
allocator wrote) is released to the system allocator after subtracting
the tag size, and any pointer whose tag bytes do not match the sentinel
(in particular every pool pointer, by the §9 sentinel assumption) is
dispatched using the slot-size class stored in the pool header recovered
by masking the pointer to its page boundary. -/
theorem custom_delete_routing (m : Mem) (headerAt : Nat → PoolHeaderG) (addr p : Nat) :
    (custom_delete (writeMallocTag m addr) headerAt (addr + MALLOC_HEADER_SIZE)
       = DeallocRoute.systemFree addr) ∧
    (isMallocTag m (p - MALLOC_HEADER_SIZE) = false →
      custom_delete m headerAt p
        = DeallocRoute.poolDealloc (headerAt (poolMask p)).sizeOfSlot p) := by
  constructor
  · have hsub : addr + MALLOC_HEADER_SIZE - MALLOC_HEADER_SIZE = addr := by omega
    simp [custom_delete, hsub, isMallocTag_writeMallocTag]
  · intro h
    simp [custom_delete, h, getPoolHeader]

/-- Witness for C1: a concrete tagged pointer routes to the system free
of the tag base, and a concrete untagged pool pointer routes to the pool
of the slot-size class in its page header. -/
theorem custom_delete_routing_witness :
    custom_delete (writeMallocTag zeroMem 8192) exHeaderAt (8192 + MALLOC_HEADER_SIZE)
      = DeallocRoute.systemFree 8192 ∧
    custom_delete zeroMem exHeaderAt 4144 = DeallocRoute.poolDealloc 16 4144 := by
  constructor
  · exact (custom_delete_routing zeroMem exHeaderAt 8192 4144).1
  · exact (custom_delete_routing zeroMem exHeaderAt 8192 4144).2 (by decide)

/-- Claim C2: for every slot-size class `s` the pool capacity equals
`floor((page_size - header_size - padding(s)) / s)` (the source inserts
no padding, so `padding(s) = 0`), and every one of the `capacity` slots
laid out from the first slot at stride `s` lies within the one-page
region. -/
theorem poolSize_formula (s : Nat) (hs : NODE_SIZE ≤ s) :
    (GlobalLinkedPool2.init s).poolSize
      = (PAGE_SIZE - POOL_HEADER_SIZE - headerPadding s) / s ∧
    ∀ i < (GlobalLinkedPool2.init s).poolSize,
      POOL_HEADER_SIZE + headerPadding s + i * s + s ≤ PAGE_SIZE := by
  have hlt : ¬ s < NODE_SIZE := not_lt.2 hs
  constructor
  · simp [GlobalLinkedPool2.init, if_neg hlt, headerPadding]
  · intro i hi
    simp only [GlobalLinkedPool2.init, if_neg hlt] at hi
    have h1 : (i + 1) * s ≤ (PAGE_SIZE - POOL_HEADER_SIZE) / s * s :=
      Nat.mul_le_mul_right s hi
    have h2 := capacity_mul_le s
    have he : (i + 1) * s = i * s + s := by ring
    rw [he] at h1
    have hps : POOL_HEADER_SIZE ≤ PAGE_SIZE := by decide
    simp only [headerPadding]
    omega

/-- Witness for C2: the capacity formula and slot containment at the
concrete 16-byte class. -/
theorem poolSize_formula_witness :
    (GlobalLinkedPool2.init 16).poolSize
      = (PAGE_SIZE - POOL_HEADER_SIZE - headerPadding 16) / 16 ∧
    ∀ i < (GlobalLinkedPool2.init 16).poolSize,
      POOL_HEADER_SIZE + headerPadding 16 + i * 16 + 16 ≤ PAGE_SIZE :=
  poolSize_formula 16 (by decide)

/-- Claim C3 evaluation: when `malloc` returns null on the large path the
source still writes the sentinel (through the null pointer: the byte at
address 0 becomes the first sentinel character) and returns
`(char*)nullptr + 16`, i.e. the non-null address 16 — it does not return
null and does not elide the write. -/
theorem large_path_oom_eval :
    (custom_new_large zeroMem none 200).2 = 16 ∧
    (custom_new_large zeroMem none 200).2 ≠ 0 ∧
    (custom_new_large zeroMem none 200).1 0 = 73 ∧
    zeroMem 0 = 0 := by
  refine ⟨rfl, by decide, ?_, rfl⟩
  rfl

/-- Claim C4 counterexample: the request `(size, alignment) = (128, 256)`
takes the small path (the threshold test runs before normalization), is
bumped to the 136-byte class — above the threshold — and yields pool
index 16, one past the last valid index of the 16-entry array. -/
theorem smallPath_index_counterexample :
    128 ≤ threshold ∧
    smallSizeClass 128 256 = 136 ∧
    threshold < smallSizeClass 128 256 ∧
    ¬ getPoolsIndex (smallSizeClass 128 256) < numPools := by
  refine ⟨by decide, by decide, by decide, by decide⟩

/-- Claim C4 (amended): for every small-path request with a positive size
and an alignment dividing 128 (hence every power-of-two alignment up to
the threshold), the normalized class stays at or below the threshold and
its pool index is valid. -/
theorem smallPath_index_valid (size alignment : Nat) (hsmall : size ≤ threshold)
    (hpos : 0 < size) (hdvd : alignment ∣ 128) :
    getPoolsIndex (smallSizeClass size alignment) < numPools ∧
    smallSizeClass size alignment ≤ threshold := by
  have h264 : (2 : Nat) ^ 64 = 18446744073709551616 := by norm_num
  have hidx : ∀ c : Nat, 8 ≤ c → c ≤ 128 → getPoolsIndex c < numPools := by
    intro c h1 h2
    unfold getPoolsIndex numPools
    have hc1 : 1 ≤ c / 8 := by omega
    have hc2 : c / 8 ≤ 16 := by omega
    have he : c / 8 + (2 ^ 64 - 1) = 2 ^ 64 + (c / 8 - 1) := by omega
    rw [he, Nat.add_mod_left, Nat.mod_eq_of_lt (by omega)]
    omega
  have hth : threshold = 128 := rfl
  rw [hth] at hsmall
  have hr8 : roundToVoid size % 8 = 0 := by
    unfold roundToVoid
    split
    · assumption
    · simp [Nat.mul_mod_left]
  have hrge : 8 ≤ roundToVoid size := by
    unfold roundToVoid
    split
    · omega
    · omega
  have hrle : roundToVoid size ≤ 128 := by
    unfold roundToVoid
    split
    · omega
    · omega
  unfold smallSizeClass alignBump
  by_cases hmod : roundToVoid size % alignment = 0
  · rw [if_pos hmod]
    exact ⟨hidx _ (by omega) (by omega), by rw [hth]; omega⟩
  · rw [if_neg hmod]
    have hne : roundToVoid size ≠ 128 := by
      intro h
      apply hmod
      rw [h]
      exact Nat.mod_eq_zero_of_dvd hdvd
    have hle : roundToVoid size ≤ 120 := by omega
    have hns : NODE_SIZE = 8 := rfl
    rw [hns]
    exact ⟨hidx _ (by omega) (by omega), by rw [hth]; omega⟩

/-- Witness for the amended C4: a 24-byte request at alignment 16 is
routed to a valid index with a class at most the threshold. -/
theorem smallPath_index_valid_witness :
    getPoolsIndex (smallSizeClass 24 16) < numPools ∧
    smallSizeClass 24 16 ≤ threshold :=
  smallPath_index_valid 24 16 (by decide) (by decide) (by decide)

/-- Claim C10: a null pointer passed to the scalar `operator delete`
overloads is a no-op (`custom_delete` is never entered, so no memory is
read and no allocator state changes), while the array overloads forward
every pointer — null included — to `custom_delete` unconditionally. -/
theorem null_delete_guard :
    operatorDeleteScalar 0 = DeleteCall.noop ∧
    operatorDeleteScalarNt 0 = DeleteCall.noop ∧
    operatorDeleteArr 0 = DeleteCall.callsCustomDelete 0 ∧
    operatorDeleteArrNt 0 = DeleteCall.callsCustomDelete 0 := by
  refine ⟨by decide, by decide, rfl, rfl⟩

/-! ## Branch equations for nextFree, allocate and deallocate -/

theorem nextFree_eq_missing {g : GlobalLinkedPool2} {pool : Nat}
    (h : lookupPage g.pages pool = none) : g.nextFree pool = (none, g) := by
  unfold GlobalLinkedPool2.nextFree
  rw [h]

theorem nextFree_eq_exhausted {g : GlobalLinkedPool2} {pool : Nat} {pg : PoolPage}
    (h : lookupPage g.pages pool = some pg) (h2 : pg.freeList = []) :
    g.nextFree pool = (none, g) := by
  unfold GlobalLinkedPool2.nextFree
  simp only [h, h2]

theorem nextFree_eq_pop_full {g : GlobalLinkedPool2} {pool : Nat} {pg : PoolPage}
    {p : Nat} {rest : List Nat}
    (h : lookupPage g.pages pool = some pg) (h2 : pg.freeList = p :: rest)
    (h3 : pg.sizeOfPool + 1 = g.poolSize) :
    g.nextFree pool =
      (some p,
        { g with
            pages := updatePage g.pages pool
              { pg with sizeOfPool := pg.sizeOfPool + 1, freeList := rest }
            freePools := erasePool pool g.freePools
            freePool := (erasePool pool g.freePools).head? }) := by
  unfold GlobalLinkedPool2.nextFree
  simp only [h, h2]
  rw [if_pos h3]

theorem nextFree_eq_pop {g : GlobalLinkedPool2} {pool : Nat} {pg : PoolPage}
    {p : Nat} {rest : List Nat}
    (h : lookupPage g.pages pool = some pg) (h2 : pg.freeList = p :: rest)
    (h3 : pg.sizeOfPool + 1 ≠ g.poolSize) :
    g.nextFree pool =
      (some p,
        { g with
            pages := updatePage g.pages pool
              { pg with sizeOfPool := pg.sizeOfPool + 1, freeList := rest } }) := by
  unfold GlobalLinkedPool2.nextFree
  simp only [h, h2]
  rw [if_neg h3]

theorem allocate_eq_cached {g : GlobalLinkedPool2} (fresh : Nat) {b : Nat}
    (h : g.freePool = some b) : g.allocate fresh = g.nextFree b := by
  unfold GlobalLinkedPool2.allocate
  rw [h]

theorem allocate_eq_min {g : GlobalLinkedPool2} (fresh : Nat) {b : Nat} {tl : List Nat}
    (h : g.freePool = none) (h2 : g.freePools = b :: tl) :
    g.allocate fresh = g.nextFree b := by
  unfold GlobalLinkedPool2.allocate
  rw [h, h2]

theorem allocate_eq_create {g : GlobalLinkedPool2} (fresh : Nat)
    (h : g.freePool = none) (h2 : g.freePools = []) :
    g.allocate fresh =
      GlobalLinkedPool2.nextFree
        { g with
            pages := g.pages ++
              [(fresh,
                { sizeOfPool := 0
                  sizeOfObjects := g.sizeOfObjects
                  freeList := poolSlots fresh g.sizeOfObjects g.poolSize })]
            freePools := insertPool fresh g.freePools
            freePool := some fresh }
        fresh := by
  unfold GlobalLinkedPool2.allocate
  rw [h, h2]

theorem deallocate_eq_missing {g : GlobalLinkedPool2} {p : Nat}
    (h : lookupPage g.pages (poolMask p) = none) : g.deallocate p = g := by
  unfold GlobalLinkedPool2.deallocate
  simp only [h]

theorem deallocate_eq_release {g : GlobalLinkedPool2} {p : Nat} {pg : PoolPage}
    (h : lookupPage g.pages (poolMask p) = some pg) (h0 : pg.sizeOfPool - 1 = 0) :
    g.deallocate p =
      { g with
          pages := erasePage g.pages (poolMask p)
          freePools := erasePool (poolMask p) g.freePools
          freePool := (erasePool (poolMask p) g.freePools).head? } := by
  unfold GlobalLinkedPool2.deallocate
  simp only [h]
  rw [if_pos h0]

theorem deallocate_eq_push {g : GlobalLinkedPool2} {p : Nat} {pg : PoolPage}
    (h : lookupPage g.pages (poolMask p) = some pg) (h0 : pg.sizeOfPool - 1 ≠ 0) :
    g.deallocate p =
      { g with
          pages := updatePage g.pages (poolMask p)
            { pg with sizeOfPool := pg.sizeOfPool - 1, freeList := p :: pg.freeList }
          freePools :=
            if pg.sizeOfPool - 1 = g.poolSize - 1 then insertPool (poolMask p) g.freePools
            else g.freePools
          freePool := some (poolMask p) } := by
  unfold GlobalLinkedPool2.deallocate
  simp only [h]
  rw [if_neg h0]

/-! ## Pages are preserved by allocation -/

theorem lookupPage_append_left {l : List (Nat × PoolPage)} (l' : List (Nat × PoolPage))
    {b : Nat} {pg : PoolPage} (h : lookupPage l b = some pg) :
    lookupPage (l ++ l') b = some pg := by
  induction l with
  | nil => simp [lookupPage] at h
  | cons q qs ih =>
    by_cases hq : q.1 = b
    · simp only [lookupPage, if_pos hq] at h
      simp only [List.cons_append, lookupPage, if_pos hq]
      exact h
    · simp only [lookupPage, if_neg hq] at h
      simp only [List.cons_append, lookupPage, if_neg hq]
      exact ih h

theorem nextFree_keeps_pages (g : GlobalLinkedPool2) (pool b : Nat) (pgb : PoolPage)
    (h : lookupPage g.pages b = some pgb) :
    ∃ pgb', lookupPage ((g.nextFree pool).2).pages b = some pgb' := by
  cases hlp : lookupPage g.pages pool with
  | none => rw [nextFree_eq_missing hlp]; exact ⟨pgb, h⟩
  | some pg =>
    cases hfl : pg.freeList with
    | nil => rw [nextFree_eq_exhausted hlp hfl]; exact ⟨pgb, h⟩
    | cons q rest =>
      by_cases hfull : pg.sizeOfPool + 1 = g.poolSize
      · rw [nextFree_eq_pop_full hlp hfl hfull]
        by_cases hb : b = pool
        · subst hb
          exact ⟨_, lookupPage_updatePage_self _ hlp⟩
        · rw [lookupPage_updatePage_ne _ hb]
          exact ⟨pgb, h⟩
      · rw [nextFree_eq_pop hlp hfl hfull]
        by_cases hb : b = pool
        · subst hb
          exact ⟨_, lookupPage_updatePage_self _ hlp⟩
        · rw [lookupPage_updatePage_ne _ hb]
          exact ⟨pgb, h⟩

theorem allocate_keeps_pages (g : GlobalLinkedPool2) (fresh b : Nat) (pgb : PoolPage)
    (h : lookupPage g.pages b = some pgb) :
    ∃ pgb', lookupPage ((g.allocate fresh).2).pages b = some pgb' := by
  cases hfp : g.freePool with
  | some b0 =>
    rw [allocate_eq_cached fresh hfp]
    exact nextFree_keeps_pages g b0 b pgb h
  | none =>
    cases hfps : g.freePools with
    | cons b0 tl =>
      rw [allocate_eq_min fresh hfp hfps]
      exact nextFree_keeps_pages g b0 b pgb h
    | nil =>
      rw [allocate_eq_create fresh hfp hfps]
      exact nextFree_keeps_pages _ fresh b pgb (lookupPage_append_left _ h)

/-- Claim C6: a deallocation releases the page (it disappears from the
allocator's owned pages) exactly when it takes the occupied count from 1
to 0; a deallocation never touches any other page, and an allocation
never removes a page. -/
theorem pool_release_iff (g : GlobalLinkedPool2) (p : Nat) (pg : PoolPage)
    (hl : lookupPage g.pages (poolMask p) = some pg) (hp : 0 < pg.sizeOfPool) :
    (lookupPage (g.deallocate p).pages (poolMask p) = none ↔ pg.sizeOfPool = 1) ∧
    (∀ b, b ≠ poolMask p → lookupPage (g.deallocate p).pages b = lookupPage g.pages b) ∧
    (∀ fresh b pgb, lookupPage g.pages b = some pgb →
      ∃ pgb', lookupPage ((g.allocate fresh).2).pages b = some pgb') := by
  refine ⟨?_, ?_, fun fresh b pgb h => allocate_keeps_pages g fresh b pgb h⟩
  · by_cases h0 : pg.sizeOfPool - 1 = 0
    · rw [deallocate_eq_release hl h0]
      simp only [lookupPage_erasePage_self]
      constructor
      · intro _; omega
      · intro _; trivial
    · rw [deallocate_eq_push hl h0]
      simp only [lookupPage_updatePage_self _ hl]
      constructor
      · intro hc; cases hc
      · intro h1; omega
  · intro b hb
    by_cases h0 : pg.sizeOfPool - 1 = 0
    · rw [deallocate_eq_release hl h0]
      exact lookupPage_erasePage_ne _ hb
    · rw [deallocate_eq_push hl h0]
      exact lookupPage_updatePage_ne _ hb

/-- Witness for C6: in a one-page pool holding a single live slot, that
slot's deallocation releases the page. -/
theorem pool_release_iff_witness :
    lookupPage ((((GlobalLinkedPool2.init 1016).allocate 4096).2).deallocate 4128).pages
      (poolMask 4128) = none := by
  have h := pool_release_iff (((GlobalLinkedPool2.init 1016).allocate 4096).2) 4128
      { sizeOfPool := 1, sizeOfObjects := 1016, freeList := [5144, 6160, 7176] }
      (by decide) (by decide)
  exact h.1.2 (by decide)

/-! ## Preservation of the pool invariants -/

theorem init_wf (t : Nat) : (GlobalLinkedPool2.init t).wf := by
  unfold GlobalLinkedPool2.wf GlobalLinkedPool2.init
  refine ⟨?_, rfl, by simp, by simp⟩
  simp only [NODE_SIZE]
  split <;> omega

theorem nextFree_wf (g : GlobalLinkedPool2) (pool : Nat) (hg : g.wf) :
    ((g.nextFree pool).2).wf := by
  cases hlp : lookupPage g.pages pool with
  | none => rw [nextFree_eq_missing hlp]; exact hg
  | some pg =>
    cases hfl : pg.freeList with
    | nil => rw [nextFree_eq_exhausted hlp hfl]; exact hg
    | cons q rest =>
      have hmem := lookupPage_mem hlp
      obtain ⟨hclass, halign, hpos, hwfpg⟩ := hg.2.2.2 _ hmem
      have hwf' :
          (GlobalLinkedPool2.wf
            { g with
                pages := updatePage g.pages pool
                  { pg with sizeOfPool := pg.sizeOfPool + 1, freeList := rest } }) := by
        refine ⟨hg.1, hg.2.1, ?_, ?_⟩
        · rw [map_fst_updatePage]
          exact hg.2.2.1
        · intro r hr
          rcases mem_updatePage hr with hr1 | hr1
          · subst hr1
            refine ⟨hclass, halign, hpos, ?_, ?_, ?_⟩
            · have h1 := hwfpg.1
              rw [hfl] at h1
              simp only [List.length_cons] at h1
              dsimp only
              omega
            · have h2 := hwfpg.2.1
              rw [hfl] at h2
              exact (List.nodup_cons.1 h2).2
            · intro x hx
              exact hwfpg.2.2 x (by rw [hfl]; exact List.mem_cons_of_mem _ hx)
          · exact hg.2.2.2 r hr1
      by_cases hfull : pg.sizeOfPool + 1 = g.poolSize
      · rw [nextFree_eq_pop_full hlp hfl hfull]
        exact hwf'
      · rw [nextFree_eq_pop hlp hfl hfull]
        exact hwf'

theorem allocate_wf (g : GlobalLinkedPool2) (fresh : Nat) (hg : g.wf) (hfr : freshOk g fresh) :
    ((g.allocate fresh).2).wf := by
  cases hfp : g.freePool with
  | some b0 =>
    rw [allocate_eq_cached fresh hfp]
    exact nextFree_wf g b0 hg
  | none =>
    cases hfps : g.freePools with
    | cons b0 tl =>
      rw [allocate_eq_min fresh hfp hfps]
      exact nextFree_wf g b0 hg
    | nil =>
      rw [allocate_eq_create fresh hfp hfps]
      apply nextFree_wf
      obtain ⟨hfa, hfpos, hfnew⟩ := hfr
      obtain ⟨hsize, hcapeq, hnd, hall⟩ := hg
      refine ⟨hsize, hcapeq, ?_, ?_⟩
      · simp only [List.map_append, List.map_cons, List.map_nil]
        refine List.Nodup.append hnd (List.nodup_singleton fresh) ?_
        intro a ha hb
        simp only [List.mem_singleton] at hb
        subst hb
        exact hfnew ha
      · intro r hr
        rcases List.mem_append.1 hr with hr1 | hr1
        · exact hall r hr1
        · simp only [List.mem_singleton] at hr1
          subst hr1
          have hs0 : 0 < g.sizeOfObjects := by
            have h8 : NODE_SIZE = 8 := rfl
            omega
          refine ⟨rfl, hfa, hfpos, ?_, ?_, ?_⟩
          · simp [poolSlots_length]
          · exact poolSlots_nodup fresh g.poolSize hs0
          · intro x hx
            exact hx

theorem deallocate_wf (g : GlobalLinkedPool2) (p : Nat) (hg : g.wf) (hlive : isLive g p) :
    (g.deallocate p).wf := by
  obtain ⟨q, hqmem, hpslot, hpfree⟩ := hlive
  obtain ⟨hclass, halign, hpos, hwfq⟩ := hg.2.2.2 q hqmem
  have h8 : NODE_SIZE = 8 := rfl
  have hs0 : 0 < q.2.sizeOfObjects := by
    have h1 := hg.1
    rw [hclass]
    omega
  have hcap : g.poolSize * q.2.sizeOfObjects ≤ PAGE_SIZE - POOL_HEADER_SIZE := by
    rw [hg.2.1, hclass]
    exact capacity_mul_le _
  have hmask : poolMask p = q.1 := poolMask_slot halign hs0 hcap hpslot
  have hl : lookupPage g.pages (poolMask p) = some q.2 := by
    rw [hmask]
    have heta : (q.1, q.2) = q := rfl
    exact lookupPage_eq_of_mem hg.2.2.1 (heta ▸ hqmem)
  by_cases h0 : q.2.sizeOfPool - 1 = 0
  · rw [deallocate_eq_release hl h0]
    refine ⟨hg.1, hg.2.1, ?_, ?_⟩
    · refine List.Nodup.sublist ?_ hg.2.2.1
      exact List.Sublist.map _ (List.filter_sublist _)
    · intro r hr
      exact hg.2.2.2 r (mem_erasePage hr)
  · rw [deallocate_eq_push hl h0]
    have hsum := hwfq.1
    have hnodup := hwfq.2.1
    have hrange := hwfq.2.2
    have hcons : List.Subperm (p :: q.2.freeList) (poolSlots q.1 q.2.sizeOfObjects g.poolSize) := by
      refine List.Nodup.subperm (List.nodup_cons.2 ⟨hpfree, hnodup⟩) ?_
      intro x hx
      rcases List.mem_cons.1 hx with rfl | hx
      · exact hpslot
      · exact hrange x hx
    have hlen : q.2.freeList.length + 1 ≤ g.poolSize := by
      have hle := hcons.length_le
      rw [poolSlots_length] at hle
      simpa using hle
    have hocc : 0 < q.2.sizeOfPool := by omega
    refine ⟨hg.1, hg.2.1, ?_, ?_⟩
    · rw [map_fst_updatePage]
      exact hg.2.2.1
    · intro r hr
      rcases mem_updatePage hr with hr1 | hr1
      · subst hr1
        rw [hmask]
        refine ⟨hclass, halign, hpos, ?_, ?_, ?_⟩
        · dsimp only
          simp only [List.length_cons]
          omega
        · exact List.nodup_cons.2 ⟨hpfree, hnodup⟩
        · intro x hx
          rcases List.mem_cons.1 hx with rfl | hx
          · exact hpslot
          · exact hrange x hx
      · exact hg.2.2.2 r hr1

/-- Claim C7: the §4.1 invariant `occupied_count + length(free_list) ==
capacity`, together with free-list nodup and containment in the slot
range, holds after construction and is preserved by every allocate (with
a well-behaved fresh page from the system) and by every deallocate of a
live pointer. -/
theorem pool_invariants (t : Nat) (g : GlobalLinkedPool2) (fresh p : Nat)
    (hg : g.wf) (hfr : freshOk g fresh) (hlive : isLive g p) :
    (GlobalLinkedPool2.init t).wf ∧ ((g.allocate fresh).2).wf ∧ (g.deallocate p).wf :=
  ⟨init_wf t, allocate_wf g fresh hg hfr, deallocate_wf g p hg hlive⟩

/-- Witness for C7: the invariants hold for a concrete construction and
are preserved by a concrete allocate and deallocate on a one-page pool
with one live slot. -/
theorem pool_invariants_witness :
    (GlobalLinkedPool2.init 16).wf ∧
    (((((GlobalLinkedPool2.init 1016).allocate 4096).2).allocate 8192).2).wf ∧
    ((((GlobalLinkedPool2.init 1016).allocate 4096).2).deallocate 4128).wf :=
  pool_invariants 16 (((GlobalLinkedPool2.init 1016).allocate 4096).2) 8192 4128
    (by decide) (by decide) (by decide)

/-! ## Freshness of allocated pointers -/

theorem mem_pages_unique {l : List (Nat × PoolPage)} {b : Nat} {x y : PoolPage}
    (hnd : (l.map Prod.fst).Nodup) (hx : (b, x) ∈ l) (hy : (b, y) ∈ l) : x = y := by
  have h1 := lookupPage_eq_of_mem hnd hx
  have h2 := lookupPage_eq_of_mem hnd hy
  rw [h1] at h2
  exact Option.some.inj h2

theorem nextFree_sound (g : GlobalLinkedPool2) (pool : Nat) {p : Nat}
    (h : (g.nextFree pool).1 = some p) :
    ∃ pg, lookupPage g.pages pool = some pg ∧ p ∈ pg.freeList := by
  cases hlp : lookupPage g.pages pool with
  | none => rw [nextFree_eq_missing hlp] at h; cases h
  | some pg =>
    cases hfl : pg.freeList with
    | nil => rw [nextFree_eq_exhausted hlp hfl] at h; cases h
    | cons q rest =>
      by_cases hfull : pg.sizeOfPool + 1 = g.poolSize
      · rw [nextFree_eq_pop_full hlp hfl hfull] at h
        simp only [Option.some.injEq] at h
        subst h
        exact ⟨pg, rfl, by rw [hfl]; exact List.mem_cons_self _ _⟩
      · rw [nextFree_eq_pop hlp hfl hfull] at h
        simp only [Option.some.injEq] at h
        subst h
        exact ⟨pg, rfl, by rw [hfl]; exact List.mem_cons_self _ _⟩

theorem slot_pos {b s cap p : Nat} (hp : p ∈ poolSlots b s cap) : 0 < p := by
  rcases mem_poolSlots.1 hp with ⟨i, _, rfl⟩
  have h32 : (0 : Nat) < POOL_HEADER_SIZE := by decide
  omega

theorem allocate_fresh_not_live (g : GlobalLinkedPool2) (fresh p : Nat)
    (hg : g.wf) (hfr : freshOk g fresh) (h : (g.allocate fresh).1 = some p) :
    0 < p ∧ ¬ isLive g p := by
  have h8 : NODE_SIZE = 8 := rfl
  have hs0 : 0 < g.sizeOfObjects := by
    have h1 := hg.1
    omega
  have hcapg : g.poolSize * g.sizeOfObjects ≤ PAGE_SIZE - POOL_HEADER_SIZE := by
    rw [hg.2.1]
    exact capacity_mul_le _
  -- common argument: the result lies on the free list of an owned page,
  -- or in the freshly created page's slot range
  have main : ∀ pool pg, (pool, pg) ∈ g.pages → p ∈ pg.freeList → 0 < p ∧ ¬ isLive g p := by
    intro pool pg hmem hpfl
    obtain ⟨hclass, halign, hpos, hwfpg⟩ := hg.2.2.2 _ hmem
    have hslot : p ∈ poolSlots pool pg.sizeOfObjects g.poolSize := hwfpg.2.2 p hpfl
    have hs0' : 0 < pg.sizeOfObjects := by rw [hclass]; exact hs0
    have hcap' : g.poolSize * pg.sizeOfObjects ≤ PAGE_SIZE - POOL_HEADER_SIZE := by
      rw [hclass]; exact hcapg
    refine ⟨slot_pos hslot, ?_⟩
    rintro ⟨r, hrmem, hrslot, hrfree⟩
    obtain ⟨hclassr, halignr, hposr, hwfr⟩ := hg.2.2.2 _ hrmem
    have hs0r : 0 < r.2.sizeOfObjects := by rw [hclassr]; exact hs0
    have hcapr : g.poolSize * r.2.sizeOfObjects ≤ PAGE_SIZE - POOL_HEADER_SIZE := by
      rw [hclassr]; exact hcapg
    have hm1 : poolMask p = pool := poolMask_slot halign hs0' hcap' hslot
    have hm2 : poolMask p = r.1 := poolMask_slot halignr hs0r hcapr hrslot
    have hbeq : r.1 = pool := by rw [← hm1, ← hm2]
    have heta : (r.1, r.2) = r := rfl
    have hpg : r.2 = pg := mem_pages_unique hg.2.2.1 (heta ▸ hbeq ▸ hrmem) hmem
    exact hrfree (hpg ▸ hpfl)
  cases hfp : g.freePool with
  | some b0 =>
    rw [allocate_eq_cached fresh hfp] at h
    obtain ⟨pg, hlp, hpfl⟩ := nextFree_sound g b0 h
    exact main b0 pg (lookupPage_mem hlp) hpfl
  | none =>
    cases hfps : g.freePools with
    | cons b0 tl =>
      rw [allocate_eq_min fresh hfp hfps] at h
      obtain ⟨pg, hlp, hpfl⟩ := nextFree_sound g b0 h
      exact main b0 pg (lookupPage_mem hlp) hpfl
    | nil =>
      rw [allocate_eq_create fresh hfp hfps] at h
      obtain ⟨pg0, hlp, hpfl⟩ := nextFree_sound _ fresh h
      obtain ⟨hfa, hfpos, hfnew⟩ := hfr
      have hlast :
          lookupPage
            (g.pages ++
              [(fresh,
                { sizeOfPool := 0
                  sizeOfObjects := g.sizeOfObjects
                  freeList := poolSlots fresh g.sizeOfObjects g.poolSize })]) fresh
          = some
              { sizeOfPool := 0
                sizeOfObjects := g.sizeOfObjects
                freeList := poolSlots fresh g.sizeOfObjects g.poolSize } :=
        lookupPage_append_last _ hfnew
      have hpg0 :
          pg0 = { sizeOfPool := 0
                  sizeOfObjects := g.sizeOfObjects
                  freeList := poolSlots fresh g.sizeOfObjects g.poolSize } := by
        have := hlp
        rw [hlast] at this
        exact (Option.some.inj this).symm
      subst hpg0
      have hslot : p ∈ poolSlots fresh g.sizeOfObjects g.poolSize := hpfl
      refine ⟨slot_pos hslot, ?_⟩
      rintro ⟨r, hrmem, hrslot, hrfree⟩
      obtain ⟨hclassr, halignr, hposr, hwfr⟩ := hg.2.2.2 _ hrmem
      have hs0r : 0 < r.2.sizeOfObjects := by rw [hclassr]; exact hs0
      have hcapr : g.poolSize * r.2.sizeOfObjects ≤ PAGE_SIZE - POOL_HEADER_SIZE := by
        rw [hclassr]; exact hcapg
      have hm1 : poolMask p = fresh := poolMask_slot hfa hs0 hcapg hslot
      have hm2 : poolMask p = r.1 := poolMask_slot halignr hs0r hcapr hrslot
      apply hfnew
      have : r.1 = fresh := by rw [← hm1, ← hm2]
      rw [← this]
      exact List.mem_map_of_mem Prod.fst hrmem

/-- Claim C9: a size-0 request takes the small path and is routed to the
valid pool-set index 0 (the `getAllocatorsIndex` zero guard), the pool
constructed for it holds slots of the minimum slot size — one pointer
word — and an allocation from any well-formed pool of that class returns
a non-null pointer distinct from every live allocation. -/
theorem size0_allocation (g : GlobalLinkedPool2) (fresh p : Nat)
    (hg : g.wf) (hfr : freshOk g fresh) (h : (g.allocate fresh).1 = some p) :
    roundToVoid 0 = 0 ∧
    getAllocatorsIndex 0 = 0 ∧
    getAllocatorsIndex NODE_SIZE = 0 ∧
    (0 : Nat) < numPools ∧
    (GlobalLinkedPool2.init 0).sizeOfObjects = NODE_SIZE ∧
    0 < p ∧ ¬ isLive g p := by
  have hmain := allocate_fresh_not_live g fresh p hg hfr h
  exact ⟨rfl, rfl, by decide, by decide, rfl, hmain.1, hmain.2⟩

set_option maxRecDepth 10000 in
/-- Witness for C9: the first allocation from the freshly constructed
minimum-size-class pool yields the non-null pointer 4128, live-distinct
by construction. -/
theorem size0_allocation_witness :
    0 < 4128 ∧ ¬ isLive (GlobalLinkedPool2.init 8) 4128 := by
  have h := size0_allocation (GlobalLinkedPool2.init 8) 4096 4128
      (by decide) (by decide) (by decide)
  exact ⟨h.2.2.2.2.2.1, h.2.2.2.2.2.2⟩

/-! ## Single-pool step equations for the LIFO scenario -/

theorem alloc_first_single (s cap b : Nat) (h0 : 0 < cap) (h1 : 0 + 1 ≠ cap) :
    GlobalLinkedPool2.allocate
      { sizeOfObjects := s, poolSize := cap, pages := [], freePools := [], freePool := none } b
    = (some (b + POOL_HEADER_SIZE + 0 * s),
       { sizeOfObjects := s, poolSize := cap,
         pages := [(b, { sizeOfPool := 0 + 1, sizeOfObjects := s,
                         freeList := chainSuffix b s (0 + 1) cap })],
         freePools := [b], freePool := some b }) := by
  rw [allocate_eq_create b rfl rfl]
  have hchain : poolSlots b s cap = (b + POOL_HEADER_SIZE + 0 * s) :: chainSuffix b s (0 + 1) cap := by
    rw [poolSlots_eq_chainSuffix, chainSuffix_cons b s h0]
  rw [@nextFree_eq_pop _ _
      { sizeOfPool := 0, sizeOfObjects := s, freeList := poolSlots b s cap } _ _
      (by simp [lookupPage]) hchain h1]
  simp [updatePage, insertPool]

theorem alloc_step_single (s cap b j p : Nat) (rest : List Nat) (hne : j + 1 ≠ cap) :
    GlobalLinkedPool2.allocate
      { sizeOfObjects := s, poolSize := cap,
        pages := [(b, { sizeOfPool := j, sizeOfObjects := s, freeList := p :: rest })],
        freePools := [b], freePool := some b } b
    = (some p,
       { sizeOfObjects := s, poolSize := cap,
         pages := [(b, { sizeOfPool := j + 1, sizeOfObjects := s, freeList := rest })],
         freePools := [b], freePool := some b }) := by
  rw [allocate_eq_cached b rfl]
  rw [@nextFree_eq_pop _ _
      { sizeOfPool := j, sizeOfObjects := s, freeList := p :: rest } _ _
      (by simp [lookupPage]) rfl hne]
  simp [updatePage]

theorem dealloc_step_single (s cap b j p : Nat) (fl : List Nat)
    (hmask : poolMask p = b) (h1 : j - 1 ≠ 0) (h2 : j - 1 ≠ cap - 1) :
    GlobalLinkedPool2.deallocate
      { sizeOfObjects := s, poolSize := cap,
        pages := [(b, { sizeOfPool := j, sizeOfObjects := s, freeList := fl })],
        freePools := [b], freePool := some b } p
    = { sizeOfObjects := s, poolSize := cap,
        pages := [(b, { sizeOfPool := j - 1, sizeOfObjects := s, freeList := p :: fl })],
        freePools := [b], freePool := some b } := by
  rw [@deallocate_eq_push _ _ { sizeOfPool := j, sizeOfObjects := s, freeList := fl }
      (by rw [hmask]; simp [lookupPage]) h1]
  rw [hmask, if_neg h2]
  simp [updatePage]

/-- Claim C5: the free list is LIFO.  From an empty pool of class `s`,
allocate A, B, C, D, E (slots 0..4), deallocate B then E; the next
allocation F returns E's address and the one after, G, returns B's. -/
theorem free_list_lifo (s b : Nat) (hs : NODE_SIZE ≤ s) (hb : b % PAGE_SIZE = 0)
    (hcap : 5 < (PAGE_SIZE - POOL_HEADER_SIZE) / s) :
    (runOps (GlobalLinkedPool2.init s)
      [PoolOp.alloc b, PoolOp.alloc b, PoolOp.alloc b, PoolOp.alloc b, PoolOp.alloc b,
       PoolOp.dealloc (b + POOL_HEADER_SIZE + 1 * s),
       PoolOp.dealloc (b + POOL_HEADER_SIZE + 4 * s),
       PoolOp.alloc b, PoolOp.alloc b]).1
    = [some (b + POOL_HEADER_SIZE + 0 * s), some (b + POOL_HEADER_SIZE + 1 * s),
       some (b + POOL_HEADER_SIZE + 2 * s), some (b + POOL_HEADER_SIZE + 3 * s),
       some (b + POOL_HEADER_SIZE + 4 * s),
       some (b + POOL_HEADER_SIZE + 4 * s), some (b + POOL_HEADER_SIZE + 1 * s)] := by
  have h8 : NODE_SIZE = 8 := rfl
  have hps : PAGE_SIZE = 4096 := rfl
  have hph : POOL_HEADER_SIZE = 32 := rfl
  have hs0 : 0 < s := by omega
  set cap := (PAGE_SIZE - POOL_HEADER_SIZE) / s with hcapdef
  have h6s : 6 * s ≤ PAGE_SIZE - POOL_HEADER_SIZE :=
    (Nat.le_div_iff_mul_le hs0).1 (by omega : 6 ≤ cap)
  have hginit : GlobalLinkedPool2.init s
      = { sizeOfObjects := s, poolSize := cap, pages := [], freePools := [], freePool := none } := by
    unfold GlobalLinkedPool2.init
    rw [if_neg (not_lt.2 hs)]
  have hmask1 : poolMask (b + POOL_HEADER_SIZE + 1 * s) = b := by
    have he : b + POOL_HEADER_SIZE + 1 * s = b + (POOL_HEADER_SIZE + 1 * s) := by ring
    rw [he]
    exact poolMask_add_offset hb (by omega)
  have hmask4 : poolMask (b + POOL_HEADER_SIZE + 4 * s) = b := by
    have he : b + POOL_HEADER_SIZE + 4 * s = b + (POOL_HEADER_SIZE + 4 * s) := by ring
    rw [he]
    exact poolMask_add_offset hb (by omega)
  have hch1 : chainSuffix b s 1 cap
      = (b + POOL_HEADER_SIZE + 1 * s) :: chainSuffix b s 2 cap := by
    rw [chainSuffix_cons b s (show 1 < cap by omega)]
  have hch2 : chainSuffix b s 2 cap
      = (b + POOL_HEADER_SIZE + 2 * s) :: chainSuffix b s 3 cap := by
    rw [chainSuffix_cons b s (show 2 < cap by omega)]
  have hch3 : chainSuffix b s 3 cap
      = (b + POOL_HEADER_SIZE + 3 * s) :: chainSuffix b s 4 cap := by
    rw [chainSuffix_cons b s (show 3 < cap by omega)]
  have hch4 : chainSuffix b s 4 cap
      = (b + POOL_HEADER_SIZE + 4 * s) :: chainSuffix b s 5 cap := by
    rw [chainSuffix_cons b s (show 4 < cap by omega)]
  have e1 : GlobalLinkedPool2.allocate
      { sizeOfObjects := s, poolSize := cap, pages := [], freePools := [], freePool := none } b
      = (some (b + POOL_HEADER_SIZE + 0 * s),
         { sizeOfObjects := s, poolSize := cap,
           pages := [(b, { sizeOfPool := 1, sizeOfObjects := s,
                           freeList := chainSuffix b s 1 cap })],
           freePools := [b], freePool := some b }) :=
    alloc_first_single s cap b (by omega) (by omega)
  have e2 : GlobalLinkedPool2.allocate
      { sizeOfObjects := s, poolSize := cap,
        pages := [(b, { sizeOfPool := 1, sizeOfObjects := s,
                        freeList := (b + POOL_HEADER_SIZE + 1 * s) :: chainSuffix b s 2 cap })],
        freePools := [b], freePool := some b } b
      = (some (b + POOL_HEADER_SIZE + 1 * s),
         { sizeOfObjects := s, poolSize := cap,
           pages := [(b, { sizeOfPool := 2, sizeOfObjects := s,
                           freeList := chainSuffix b s 2 cap })],
           freePools := [b], freePool := some b }) :=
    alloc_step_single s cap b 1 _ _ (by omega)
  have e3 : GlobalLinkedPool2.allocate
      { sizeOfObjects := s, poolSize := cap,
        pages := [(b, { sizeOfPool := 2, sizeOfObjects := s,
                        freeList := (b + POOL_HEADER_SIZE + 2 * s) :: chainSuffix b s 3 cap })],
        freePools := [b], freePool := some b } b
      = (some (b + POOL_HEADER_SIZE + 2 * s),
         { sizeOfObjects := s, poolSize := cap,
           pages := [(b, { sizeOfPool := 3, sizeOfObjects := s,
                           freeList := chainSuffix b s 3 cap })],
           freePools := [b], freePool := some b }) :=
    alloc_step_single s cap b 2 _ _ (by omega)
  have e4 : GlobalLinkedPool2.allocate
      { sizeOfObjects := s, poolSize := cap,
        pages := [(b, { sizeOfPool := 3, sizeOfObjects := s,
                        freeList := (b + POOL_HEADER_SIZE + 3 * s) :: chainSuffix b s 4 cap })],
        freePools := [b], freePool := some b } b
      = (some (b + POOL_HEADER_SIZE + 3 * s),
         { sizeOfObjects := s, poolSize := cap,
           pages := [(b, { sizeOfPool := 4, sizeOfObjects := s,
                           freeList := chainSuffix b s 4 cap })],
           freePools := [b], freePool := some b }) :=
    alloc_step_single s cap b 3 _ _ (by omega)
  have e5 : GlobalLinkedPool2.allocate
      { sizeOfObjects := s, poolSize := cap,
        pages := [(b, { sizeOfPool := 4, sizeOfObjects := s,
                        freeList := (b + POOL_HEADER_SIZE + 4 * s) :: chainSuffix b s 5 cap })],
        freePools := [b], freePool := some b } b
      = (some (b + POOL_HEADER_SIZE + 4 * s),
         { sizeOfObjects := s, poolSize := cap,
           pages := [(b, { sizeOfPool := 5, sizeOfObjects := s,
                           freeList := chainSuffix b s 5 cap })],
           freePools := [b], freePool := some b }) :=
    alloc_step_single s cap b 4 _ _ (by omega)
  have d1 : GlobalLinkedPool2.deallocate
      { sizeOfObjects := s, poolSize := cap,
        pages := [(b, { sizeOfPool := 5, sizeOfObjects := s,
                        freeList := chainSuffix b s 5 cap })],
        freePools := [b], freePool := some b } (b + POOL_HEADER_SIZE + 1 * s)
      = { sizeOfObjects := s, poolSize := cap,
          pages := [(b, { sizeOfPool := 4, sizeOfObjects := s,
                          freeList := (b + POOL_HEADER_SIZE + 1 * s) :: chainSuffix b s 5 cap })],
          freePools := [b], freePool := some b } :=
    dealloc_step_single s cap b 5 _ _ hmask1 (by omega) (by omega)
  have d2 : GlobalLinkedPool2.deallocate
      { sizeOfObjects := s, poolSize := cap,
        pages := [(b, { sizeOfPool := 4, sizeOfObjects := s,
                        freeList := (b + POOL_HEADER_SIZE + 1 * s) :: chainSuffix b s 5 cap })],
        freePools := [b], freePool := some b } (b + POOL_HEADER_SIZE + 4 * s)
      = { sizeOfObjects := s, poolSize := cap,
          pages := [(b, { sizeOfPool := 3, sizeOfObjects := s,
                          freeList := (b + POOL_HEADER_SIZE + 4 * s) ::
                            (b + POOL_HEADER_SIZE + 1 * s) :: chainSuffix b s 5 cap })],
          freePools := [b], freePool := some b } :=
    dealloc_step_single s cap b 4 _ _ hmask4 (by omega) (by omega)
  have e6 : GlobalLinkedPool2.allocate
      { sizeOfObjects := s, poolSize := cap,
        pages := [(b, { sizeOfPool := 3, sizeOfObjects := s,
                        freeList := (b + POOL_HEADER_SIZE + 4 * s) ::
                          (b + POOL_HEADER_SIZE + 1 * s) :: chainSuffix b s 5 cap })],
        freePools := [b], freePool := some b } b
      = (some (b + POOL_HEADER_SIZE + 4 * s),
         { sizeOfObjects := s, poolSize := cap,
           pages := [(b, { sizeOfPool := 4, sizeOfObjects := s,
                           freeList := (b + POOL_HEADER_SIZE + 1 * s) ::
                             chainSuffix b s 5 cap })],
           freePools := [b], freePool := some b }) :=
    alloc_step_single s cap b 3 _ _ (by omega)
  have e7 : GlobalLinkedPool2.allocate
      { sizeOfObjects := s, poolSize := cap,
        pages := [(b, { sizeOfPool := 4, sizeOfObjects := s,
                        freeList := (b + POOL_HEADER_SIZE + 1 * s) ::
                          chainSuffix b s 5 cap })],
        freePools := [b], freePool := some b } b
      = (some (b + POOL_HEADER_SIZE + 1 * s),
         { sizeOfObjects := s, poolSize := cap,
           pages := [(b, { sizeOfPool := 5, sizeOfObjects := s,
                           freeList := chainSuffix b s 5 cap })],
           freePools := [b], freePool := some b }) :=
    alloc_step_single s cap b 4 _ _ (by omega)
  rw [hginit]
  simp only [runOps]
  rw [e1]
  dsimp only
  rw [hch1, e2]
  dsimp only
  rw [hch2, e3]
  dsimp only
  rw [hch3, e4]
  dsimp only
  rw [hch4, e5]
  dsimp only
  rw [d1, d2, e6]
  dsimp only
  rw [e7]

/-- Witness for C5: the LIFO scenario at the 16-byte class on the page at
4096: F returns E's address (slot 4) and G returns B's (slot 1). -/
theorem free_list_lifo_witness :
    (runOps (GlobalLinkedPool2.init 16)
      [PoolOp.alloc 4096, PoolOp.alloc 4096, PoolOp.alloc 4096, PoolOp.alloc 4096,
       PoolOp.alloc 4096,
       PoolOp.dealloc (4096 + POOL_HEADER_SIZE + 1 * 16),
       PoolOp.dealloc (4096 + POOL_HEADER_SIZE + 4 * 16),
       PoolOp.alloc 4096, PoolOp.alloc 4096]).1
    = [some (4096 + POOL_HEADER_SIZE + 0 * 16), some (4096 + POOL_HEADER_SIZE + 1 * 16),
       some (4096 + POOL_HEADER_SIZE + 2 * 16), some (4096 + POOL_HEADER_SIZE + 3 * 16),
       some (4096 + POOL_HEADER_SIZE + 4 * 16),
       some (4096 + POOL_HEADER_SIZE + 4 * 16), some (4096 + POOL_HEADER_SIZE + 1 * 16)] :=
  free_list_lifo 16 4096 (by decide) (by decide) (by decide)

/-! ## The allocation-only run: closed form -/

theorem map_fst_fullRange (s cap : Nat) (f : Nat → Nat) (m : Nat) :
    (((List.range m).map (fun i => (f i, fullPage s cap))).map Prod.fst)
      = (List.range m).map f := by
  simp [List.map_map, Function.comp]

theorem fm_not_mem_range {f : Nat → Nat} (hinj : ∀ i j, f i = f j → i = j) (m : Nat) :
    f m ∉ (List.range m).map f := by
  intro hmem
  rcases List.mem_map.1 hmem with ⟨i, hi, heq⟩
  rw [List.mem_range] at hi
  have := hinj i m heq
  omega

theorem divmod_succ_lt {cap t : Nat} (hcap : 0 < cap) (h : t % cap + 1 < cap) :
    (t + 1) / cap = t / cap ∧ (t + 1) % cap = t % cap + 1 := by
  have ht := Nat.div_add_mod t cap
  have he : t + 1 = cap * (t / cap) + (t % cap + 1) := by omega
  constructor
  · rw [he, Nat.mul_add_div hcap, Nat.div_eq_of_lt h, Nat.add_zero]
  · rw [he, Nat.mul_add_mod, Nat.mod_eq_of_lt h]

theorem divmod_succ_full {cap t : Nat} (hcap : 0 < cap) (h : t % cap + 1 = cap) :
    (t + 1) / cap = t / cap + 1 ∧ (t + 1) % cap = 0 := by
  have ht := Nat.div_add_mod t cap
  have he : t + 1 = cap * (t / cap + 1) := by
    have : cap * (t / cap + 1) = cap * (t / cap) + cap := by ring
    omega
  constructor
  · rw [he, Nat.mul_div_cancel_left _ hcap]
  · rw [he, Nat.mul_mod_right]

theorem allocate_stateAfter (s cap : Nat) (f : Nat → Nat) (t : Nat)
    (hcap : 0 < cap) (hinj : ∀ i j, f i = f j → i = j) :
    (stateAfter s cap f t).allocate (f ((stateAfter s cap f t).pages.length))
      = (some (runAddr s cap f t), stateAfter s cap f (t + 1)) := by
  have hj : t % cap < cap := Nat.mod_lt _ hcap
  have hkeys := map_fst_fullRange s cap f (t / cap)
  have hfm := fm_not_mem_range hinj (t / cap)
  by_cases hj0 : t % cap = 0
  · have hst : stateAfter s cap f t
        = { sizeOfObjects := s, poolSize := cap,
            pages := (List.range (t / cap)).map (fun i => (f i, fullPage s cap)),
            freePools := [], freePool := none } := by
      simp [stateAfter, hj0]
    rw [hst]
    have hlen : ({ sizeOfObjects := s, poolSize := cap,
                   pages := (List.range (t / cap)).map (fun i => (f i, fullPage s cap)),
                   freePools := [], freePool := none } : GlobalLinkedPool2).pages.length
        = t / cap := by
      simp
    rw [hlen]
    rw [allocate_eq_create _ rfl rfl]
    have hnotmem : f (t / cap) ∉
        (((List.range (t / cap)).map (fun i => (f i, fullPage s cap))).map Prod.fst) := by
      rw [hkeys]
      exact hfm
    have hlook : lookupPage
        ((((List.range (t / cap)).map (fun i => (f i, fullPage s cap)))) ++
          [(f (t / cap),
            { sizeOfPool := 0, sizeOfObjects := s,
              freeList := poolSlots (f (t / cap)) s cap })]) (f (t / cap))
        = some { sizeOfPool := 0, sizeOfObjects := s,
                 freeList := poolSlots (f (t / cap)) s cap } :=
      lookupPage_append_last _ hnotmem
    have hchain : ({ sizeOfPool := 0, sizeOfObjects := s,
                     freeList := poolSlots (f (t / cap)) s cap } : PoolPage).freeList
        = (f (t / cap) + POOL_HEADER_SIZE + 0 * s) ::
            chainSuffix (f (t / cap)) s (0 + 1) cap := by
      dsimp only
      rw [poolSlots_eq_chainSuffix, chainSuffix_cons _ _ hcap]
    by_cases hfull : (0 : Nat) + 1 = cap
    · rw [nextFree_eq_pop_full hlook hchain hfull]
      rw [updatePage_append_last _ _ hnotmem]
      have hdm := divmod_succ_full (t := t) hcap (by omega)
      have hst' : stateAfter s cap f (t + 1)
          = { sizeOfObjects := s, poolSize := cap,
              pages := (List.range (t / cap + 1)).map (fun i => (f i, fullPage s cap)),
              freePools := [], freePool := none } := by
        simp [stateAfter, hdm.1, hdm.2]
      rw [hst']
      have hpg : ({ sizeOfPool := 0 + 1, sizeOfObjects := s,
                    freeList := chainSuffix (f (t / cap)) s (0 + 1) cap } : PoolPage)
          = fullPage s cap := by
        have h1 : chainSuffix (f (t / cap)) s (0 + 1) cap = [] := by
          rw [← hfull]
          exact chainSuffix_last _ _ _
        rw [h1, hfull]
        rfl
      simp [runAddr, hj0, hpg, List.range_succ, insertPool, erasePool]
    · rw [nextFree_eq_pop hlook hchain (by dsimp only; omega)]
      rw [updatePage_append_last _ _ hnotmem]
      have hdm := divmod_succ_lt (t := t) hcap (by omega)
      have hst' : stateAfter s cap f (t + 1)
          = { sizeOfObjects := s, poolSize := cap,
              pages := ((List.range (t / cap)).map (fun i => (f i, fullPage s cap))) ++
                [(f (t / cap), midPage (f (t / cap)) s 1 cap)],
              freePools := [f (t / cap)], freePool := some (f (t / cap))} := by
        simp [stateAfter, hdm.1, hdm.2, hj0]
      rw [hst']
      simp [runAddr, hj0, midPage, insertPool]
  · have hst : stateAfter s cap f t
        = { sizeOfObjects := s, poolSize := cap,
            pages := ((List.range (t / cap)).map (fun i => (f i, fullPage s cap))) ++
              [(f (t / cap), midPage (f (t / cap)) s (t % cap) cap)],
            freePools := [f (t / cap)], freePool := some (f (t / cap)) } := by
      simp [stateAfter, hj0]
    rw [hst]
    rw [allocate_eq_cached _ rfl]
    have hnotmem : f (t / cap) ∉
        (((List.range (t / cap)).map (fun i => (f i, fullPage s cap))).map Prod.fst) := by
      rw [hkeys]
      exact hfm
    have hlook : lookupPage
        ((((List.range (t / cap)).map (fun i => (f i, fullPage s cap)))) ++
          [(f (t / cap), midPage (f (t / cap)) s (t % cap) cap)]) (f (t / cap))
        = some (midPage (f (t / cap)) s (t % cap) cap) :=
      lookupPage_append_last _ hnotmem
    have hchain : (midPage (f (t / cap)) s (t % cap) cap).freeList
        = (f (t / cap) + POOL_HEADER_SIZE + t % cap * s) ::
            chainSuffix (f (t / cap)) s (t % cap + 1) cap := by
      dsimp only [midPage]
      exact chainSuffix_cons _ _ hj
    by_cases hfull : t % cap + 1 = cap
    · rw [@nextFree_eq_pop_full
          { sizeOfObjects := s, poolSize := cap,
            pages := ((List.range (t / cap)).map (fun i => (f i, fullPage s cap))) ++
              [(f (t / cap), midPage (f (t / cap)) s (t % cap) cap)],
            freePools := [f (t / cap)], freePool := some (f (t / cap)) }
          (f (t / cap))
          (midPage (f (t / cap)) s (t % cap) cap)
          (f (t / cap) + POOL_HEADER_SIZE + t % cap * s)
          (chainSuffix (f (t / cap)) s (t % cap + 1) cap)
          hlook hchain hfull]
      rw [updatePage_append_last _ _ hnotmem]
      have hdm := divmod_succ_full hcap hfull
      have hst' : stateAfter s cap f (t + 1)
          = { sizeOfObjects := s, poolSize := cap,
              pages := (List.range (t / cap + 1)).map (fun i => (f i, fullPage s cap)),
              freePools := [], freePool := none } := by
        simp [stateAfter, hdm.1, hdm.2]
      rw [hst']
      have hpg : ({ sizeOfPool := t % cap + 1, sizeOfObjects := s,
                    freeList := chainSuffix (f (t / cap)) s (t % cap + 1) cap } : PoolPage)
          = fullPage s cap := by
        have h1 : chainSuffix (f (t / cap)) s (t % cap + 1) cap = [] := by
          rw [hfull]
          exact chainSuffix_last _ _ _
        rw [h1, hfull]
        rfl
      simp [runAddr, midPage, hpg, List.range_succ, erasePool]
    · rw [@nextFree_eq_pop
          { sizeOfObjects := s, poolSize := cap,
            pages := ((List.range (t / cap)).map (fun i => (f i, fullPage s cap))) ++
              [(f (t / cap), midPage (f (t / cap)) s (t % cap) cap)],
            freePools := [f (t / cap)], freePool := some (f (t / cap)) }
          (f (t / cap))
          (midPage (f (t / cap)) s (t % cap) cap)
          (f (t / cap) + POOL_HEADER_SIZE + t % cap * s)
          (chainSuffix (f (t / cap)) s (t % cap + 1) cap)
          hlook hchain hfull]
      rw [updatePage_append_last _ _ hnotmem]
      have hdm := divmod_succ_lt (t := t) hcap (by omega)
      have hst' : stateAfter s cap f (t + 1)
          = { sizeOfObjects := s, poolSize := cap,
              pages := ((List.range (t / cap)).map (fun i => (f i, fullPage s cap))) ++
                [(f (t / cap), midPage (f (t / cap)) s (t % cap + 1) cap)],
              freePools := [f (t / cap)], freePool := some (f (t / cap)) } := by
        simp [stateAfter, hdm.1, hdm.2, hj0]
      rw [hst']
      simp [runAddr, midPage]

theorem allocRun_stateAfter (s cap : Nat) (f : Nat → Nat)
    (hcap : 0 < cap) (hinj : ∀ i j, f i = f j → i = j) :
    ∀ (n t : Nat), allocRun (stateAfter s cap f t) f n
      = ((List.range n).map (fun i => some (runAddr s cap f (t + i))),
         stateAfter s cap f (t + n)) := by
  intro n
  induction n with
  | zero =>
    intro t
    simp [allocRun]
  | succ n ih =>
    intro t
    simp only [allocRun]
    rw [allocate_stateAfter s cap f t hcap hinj]
    dsimp only
    rw [ih (t + 1)]
    dsimp only
    simp only [Prod.mk.injEq]
    constructor
    · rw [List.range_succ_eq_map, List.map_cons, List.map_map]
      congr 1
      apply List.map_congr_left
      intro i _
      simp only [Function.comp_apply, Nat.succ_eq_add_one]
      have he : t + 1 + i = t + (i + 1) := by ring
      rw [he]
    · have he : t + 1 + n = t + (n + 1) := by ring
      rw [he]

/-- Claim C8: `N` successful allocations of one size class with no
intervening deallocations follow the closed form (slot `t % cap` of page
`t / cap`), are pairwise distinct and non-null, and two consecutively
returned pointers on the same page differ by exactly the slot size. -/
theorem alloc_run_distinct (s : Nat) (f : Nat → Nat) (N : Nat)
    (hs : NODE_SIZE ≤ s) (hcap : 0 < (PAGE_SIZE - POOL_HEADER_SIZE) / s)
    (hinj : ∀ i j, f i = f j → i = j) (halign : ∀ i, f i % PAGE_SIZE = 0) :
    (allocRun (GlobalLinkedPool2.init s) f N).1
      = (List.range N).map
          (fun t => some (runAddr s ((PAGE_SIZE - POOL_HEADER_SIZE) / s) f t)) ∧
    ((allocRun (GlobalLinkedPool2.init s) f N).1).Nodup ∧
    (∀ r ∈ (allocRun (GlobalLinkedPool2.init s) f N).1, ∃ a, r = some a ∧ 0 < a) ∧
    (∀ t a c, ((allocRun (GlobalLinkedPool2.init s) f N).1).get? t = some (some a) →
      ((allocRun (GlobalLinkedPool2.init s) f N).1).get? (t + 1) = some (some c) →
      poolMask c = poolMask a → c = a + s) := by
  have h8 : NODE_SIZE = 8 := rfl
  have hP : POOL_HEADER_SIZE = 32 := rfl
  have hPS : PAGE_SIZE = 4096 := rfl
  have hs0 : 0 < s := by omega
  set cap := (PAGE_SIZE - POOL_HEADER_SIZE) / s with hcapdef
  have hcapmul : cap * s ≤ PAGE_SIZE - POOL_HEADER_SIZE := by
    have h := capacity_mul_le s
    rw [← hcapdef] at h
    exact h
  have hinit : GlobalLinkedPool2.init s = stateAfter s cap f 0 := by
    unfold GlobalLinkedPool2.init
    rw [if_neg (not_lt.2 hs)]
    simp [stateAfter]
  have hres : (allocRun (GlobalLinkedPool2.init s) f N).1
      = (List.range N).map (fun t => some (runAddr s cap f t)) := by
    rw [hinit, allocRun_stateAfter s cap f hcap hinj N 0]
    dsimp only
    apply List.map_congr_left
    intro i _
    rw [Nat.zero_add]
  have hoff : ∀ t : Nat, POOL_HEADER_SIZE + t % cap * s < PAGE_SIZE := by
    intro t
    have hj : t % cap < cap := Nat.mod_lt _ hcap
    have h1 : (t % cap + 1) * s ≤ cap * s := Nat.mul_le_mul_right s hj
    have he : (t % cap + 1) * s = t % cap * s + s := by ring
    rw [he] at h1
    omega
  have hmask : ∀ t, poolMask (runAddr s cap f t) = f (t / cap) := by
    intro t
    unfold runAddr
    have he : f (t / cap) + POOL_HEADER_SIZE + t % cap * s
        = f (t / cap) + (POOL_HEADER_SIZE + t % cap * s) := by ring
    rw [he]
    exact poolMask_add_offset (halign _) (hoff t)
  have haddr_inj : ∀ t u, runAddr s cap f t = runAddr s cap f u → t = u := by
    intro t u he
    have hm : f (u / cap) = f (t / cap) := by
      have h1 := hmask t
      have h2 := hmask u
      rw [he] at h1
      rw [← h1, h2]
    have hdiv : u / cap = t / cap := hinj _ _ hm
    have hmuls : t % cap * s = u % cap * s := by
      unfold runAddr at he
      rw [hdiv] at he
      omega
    have hmod : t % cap = u % cap := Nat.eq_of_mul_eq_mul_right hs0 hmuls
    have ht := Nat.div_add_mod t cap
    have hu := Nat.div_add_mod u cap
    rw [hdiv] at hu
    omega
  refine ⟨hres, ?_, ?_, ?_⟩
  · rw [hres]
    refine List.Nodup.map ?_ (List.nodup_range N)
    intro t u he
    exact haddr_inj t u (Option.some.inj he)
  · rw [hres]
    intro r hr
    rcases List.mem_map.1 hr with ⟨t, _, rfl⟩
    refine ⟨runAddr s cap f t, rfl, ?_⟩
    unfold runAddr
    omega
  · rw [hres]
    intro t a c h1 h2 hm
    have ha : t < N ∧ a = runAddr s cap f t := by
      rw [List.get?_map] at h1
      cases hq : (List.range N).get? t with
      | none => rw [hq] at h1; cases h1
      | some v =>
        have htN : t < N := by
          have := List.get?_eq_some.1 hq
          rcases this with ⟨hlt, _⟩
          simpa using hlt
        rw [List.get?_range htN] at h1
        simp only [Option.map_some', Option.some.injEq] at h1
        exact ⟨htN, h1.symm⟩
    have hc : t + 1 < N ∧ c = runAddr s cap f (t + 1) := by
      rw [List.get?_map] at h2
      cases hq : (List.range N).get? (t + 1) with
      | none => rw [hq] at h2; cases h2
      | some v =>
        have htN : t + 1 < N := by
          have := List.get?_eq_some.1 hq
          rcases this with ⟨hlt, _⟩
          simpa using hlt
        rw [List.get?_range htN] at h2
        simp only [Option.map_some', Option.some.injEq] at h2
        exact ⟨htN, h2.symm⟩
    rcases ha with ⟨_, rfl⟩
    rcases hc with ⟨_, rfl⟩
    rw [hmask, hmask] at hm
    have hdiv : (t + 1) / cap = t / cap := hinj _ _ hm
    have ht := Nat.div_add_mod t cap
    have ht1 := Nat.div_add_mod (t + 1) cap
    rw [hdiv] at ht1
    have hmod : (t + 1) % cap = t % cap + 1 := by omega
    unfold runAddr
    rw [hdiv, hmod]
    have he : (t % cap + 1) * s = t % cap * s + s := by ring
    rw [he]
    ring

/-- Witness for C8: three allocations of the 16-byte class with pages at
4096, 8192, 12288 follow the closed form and are pairwise distinct. -/
theorem alloc_run_distinct_witness :
    (allocRun (GlobalLinkedPool2.init 16) exF 3).1
      = (List.range 3).map
          (fun t => some (runAddr 16 ((PAGE_SIZE - POOL_HEADER_SIZE) / 16) exF t)) ∧
    ((allocRun (GlobalLinkedPool2.init 16) exF 3).1).Nodup := by
  have hinj : ∀ i j, exF i = exF j → i = j := by
    intro i j hij
    simp only [exF, PAGE_SIZE] at hij
    omega
  have halign : ∀ i, exF i % PAGE_SIZE = 0 := by
    intro i
    simp [exF, Nat.mul_mod_left]
  have h := alloc_run_distinct 16 exF 3 (by decide) (by decide) hinj halign
  exact ⟨h.1, h.2.1⟩
